import Mathlib

/-!
Shallow embedding of the animated Sankey particle-flow engine
(`animated-sankey.js`: color derivation, `Particle` class,
`prepareParticlesForClass`, the `animate` frame loop, and the
`renderAnimatedSankeyDiagram` session replacement logic).

Modelling conventions:
* JS numbers are modelled as `ℚ` (all constants in the source are exact
  decimals; `Math.PI` is modelled by the IEEE-double decimal literal).
* `Math.random()` is modelled as an ambient stream `r : ℕ → ℚ` of draws;
  where a property depends on the range of `Math.random()` we assume
  `∀ i, 0 ≤ r i ∧ r i < 1`.
* Host functions with no exact rational semantics (`Math.sqrt`, `Math.sin`)
  are passed in as parameters `jsSqrt jsSin : ℚ → ℚ`.
* The DOM path-sampling API (`getTotalLength`/`getPointAtLength`) is
  modelled as `Option (ℚ → Point)`: `none` is the degenerate/zero-length
  curve from which no sample point can be obtained.
-/

namespace AnimatedSankey

abbrev Point : Type := ℚ × ℚ

/-- A Sankey link as used by the animation code: the raw record fields
`sourceName`/`value` plus the layout-computed band `width`. -/
structure LinkRec where
  sourceName : String
  targetName : String
  value : ℕ
  width : ℚ
deriving DecidableEq

/-- The fixed class order for sequential animation (`CLASS_ORDER`). -/
def CLASS_ORDER : List String :=
  ["下層階級", "勞工階級", "中下層階級", "中層階級", "中上層階級", "上層階級"]

/-- `SUBJECTIVE_COLORS`, with each hex literal parsed to its (r,g,b)
channel triple:  #a08080, #c89090, #d4b896, #9db7c4, #a8c4a8, #789078. -/
def SUBJECTIVE_COLORS (name : String) : Option (ℕ × ℕ × ℕ) :=
  if name = "下層階級" then some (160, 128, 128)
  else if name = "勞工階級" then some (200, 144, 144)
  else if name = "中下層階級" then some (212, 184, 150)
  else if name = "中層階級" then some (157, 183, 196)
  else if name = "中上層階級" then some (168, 196, 168)
  else if name = "上層階級" then some (120, 144, 120)
  else none

/-- The fallback color `#95a5a6` used when a source name has no entry. -/
def DEFAULT_COLOR : ℕ × ℕ × ℕ := (149, 165, 166)

/-! ### Color transform (`lightenAndDesaturateColor`)

The source function parses `'#rrggbb'` into three 0–255 channels, works on
them, and re-formats with two hex digits per channel; hex parsing and
formatting are the standard bijection between strings and channel triples,
so the embedding works directly on the triples. -/

/-- The `hue2rgb` helper closure from the source. -/
def hue2rgb (p q t : ℚ) : ℚ :=
  let t1 := if t < 0 then t + 1 else t
  let t2 := if t1 > 1 then t1 - 1 else t1
  if t2 < 1/6 then p + (q - p) * 6 * t2
  else if t2 < 1/2 then q
  else if t2 < 2/3 then p + (q - p) * (2/3 - t2) * 6
  else p

/-- JS `Math.round` on a nonnegative value: round half up. -/
def jsRound (x : ℚ) : ℤ := ⌊x + 1/2⌋

/-- `toHex` channel computation: `Math.round(val * 255)` (the hex
formatting itself is the standard two-digit rendering of the result). -/
def toHexChannel (v : ℚ) : ℤ := jsRound (v * 255)

/-- The RGB → HSL conversion step of `lightenAndDesaturateColor`
(channels 0–255 in, `(h, s, l)` out). -/
def hslOf (r g b : ℕ) : ℚ × ℚ × ℚ :=
  let rNorm : ℚ := (r : ℚ) / 255
  let gNorm : ℚ := (g : ℚ) / 255
  let bNorm : ℚ := (b : ℚ) / 255
  let mx := max rNorm (max gNorm bNorm)
  let mn := min rNorm (min gNorm bNorm)
  let l := (mx + mn) / 2
  if mx = mn then (0, 0, l)
  else
    let d := mx - mn
    let s := if l > 1/2 then d / (2 - mx - mn) else d / (mx + mn)
    let h :=
      if mx = rNorm then ((gNorm - bNorm) / d + (if gNorm < bNorm then 6 else 0)) / 6
      else if mx = gNorm then ((bNorm - rNorm) / d + 2) / 6
      else ((rNorm - gNorm) / d + 4) / 6
    (h, s, l)

/-- The HSL → RGB conversion step of `lightenAndDesaturateColor`
(unit-interval channels out when the inputs are in range). -/
def hslToRgb (h s l : ℚ) : ℚ × ℚ × ℚ :=
  if s = 0 then (l, l, l)
  else
    let q := if l < 1/2 then l * (1 + s) else l + s - l * s
    let p := 2 * l - q
    (hue2rgb p q (h + 1/3), hue2rgb p q h, hue2rgb p q (h - 1/3))

/-- `lightenAndDesaturateColor` on channel triples: RGB → HSL,
`s := max 0 (s * 0.85)`, `l := min 1 (l + 0.1)`, HSL → RGB, round each
channel back to 0–255. -/
def lightenAndDesaturateColor (r g b : ℕ) : ℤ × ℤ × ℤ :=
  let hsl := hslOf r g b
  let s := max 0 (hsl.2.1 * 0.85)
  let l := min 1 (hsl.2.2 + 0.1)
  let rgb2 := hslToRgb hsl.1 s l
  (toHexChannel rgb2.1, toHexChannel rgb2.2.1, toHexChannel rgb2.2.2)

/-! ### Particle -/

/-- JS `Math.PI` (the IEEE-754 double, as a decimal literal). -/
def jsPI : ℚ := 3.141592653589793

/-- A live particle (the `Particle` class fields). -/
structure Particle where
  link : LinkRec
  color : ℤ × ℤ × ℤ
  progress : ℚ
  speed : ℚ
  opacity : ℚ
  size : ℚ
  birthTime : ℚ
  lateralOffset : ℚ
  lateralDriftSpeed : ℚ
  lateralPhase : ℚ
deriving DecidableEq

/-- The `Particle` constructor; `rc` is the `Math.random()` stream and `k`
the index of the first of the five draws it consumes. -/
def Particle.make (link : LinkRec) (color : ℕ × ℕ × ℕ)
    (birthTime initialProgress : ℚ) (rc : ℕ → ℚ) (k : ℕ) : Particle :=
  { link := link
    color := lightenAndDesaturateColor color.1 color.2.1 color.2.2
    progress := initialProgress
    speed := 1 / 3000
    opacity := 0.7 + rc k * 0.3
    size := 2.5 + rc (k + 1) * 1.5
    birthTime := birthTime
    lateralOffset := rc (k + 2) - 0.5
    lateralDriftSpeed := (rc (k + 3) - 0.5) * 0.0002
    lateralPhase := rc (k + 4) * jsPI * 2 }

/-- `Particle.update(deltaTime)`: returns the mutated particle and the
`this.progress < 1` aliveness result. -/
def Particle.update (p : Particle) (dt : ℚ) : Particle × Bool :=
  let p1 := { p with
    progress := p.progress + p.speed * dt
    lateralPhase := p.lateralPhase + dt * 0.001 }
  let lo := p1.lateralOffset + p1.lateralDriftSpeed * dt
  let p2 := { p1 with lateralOffset := max (-0.5) (min 0.5 lo) }
  (p2, decide (p2.progress < 1))

/-! ### Drawing (`Particle.draw` / `Particle.getPointAtProgress`) -/

/-- One canvas command emitted by `Particle.draw`: a filled circle. -/
structure DrawOp where
  pos : Point
  radius : ℚ
  color : ℤ × ℤ × ℤ
  alpha : ℚ
deriving DecidableEq

/-- The perpendicular unit vector computed in `Particle.draw`: difference
of the two sampled points, divided by its length only when that length is
strictly positive; otherwise both components stay `0`. -/
def perpUnit (jsSqrt : ℚ → ℚ) (c t : Point) : Point :=
  let dx := t.1 - c.1
  let dy := t.2 - c.2
  let length := jsSqrt (dx * dx + dy * dy)
  if 0 < length then (-dy / length, dx / length) else (0, 0)

/-- The final drawn position of a particle given the sampled center point
`c` and the tangent sample point `t`. -/
def particlePos (jsSqrt jsSin : ℚ → ℚ) (p : Particle) (c t : Point) : Point :=
  let pathWidth := max 1 p.link.width
  let oscillation := jsSin p.lateralPhase * 0.3
  let totalOffset := (p.lateralOffset + oscillation) * pathWidth * 0.4
  let u := perpUnit jsSqrt c t
  (c.1 + u.1 * totalOffset, c.2 + u.2 * totalOffset)

/-- `Particle.draw`:  `sampler` models the DOM path element built by
`getPointAtProgress` (`none` = degenerate curve, no sample point; `some f`
= point at normalized arc length, with the `Math.min(1, ·)` clamp applied
to the queried progress).  A degenerate curve emits no drawing command. -/
def drawParticle (jsSqrt jsSin : ℚ → ℚ) (sampler : Option (ℚ → Point))
    (p : Particle) : List DrawOp :=
  if 1 ≤ p.progress then []
  else
    match sampler with
    | none => []
    | some f =>
      let c := f (min 1 p.progress)
      let t := f (min 1 (p.progress + 0.01))
      [{ pos := particlePos jsSqrt jsSin p c t
         radius := p.size
         color := p.color
         alpha := p.opacity * (1 - p.progress * 0.3) }]

/-! ### Spawn queue (`prepareParticlesForClass`) -/

/-- A queued particle descriptor (`particleQueue` entries). -/
structure QueuedParticle where
  link : LinkRec
  color : ℕ × ℕ × ℕ
  spawnDelay : ℚ
  initialProgress : ℚ
deriving DecidableEq

/-- The descriptors created for one link: one per underlying sample
(`for (let i = 0; i < link.value; i++)`), each consuming four
`Math.random()` draws — three averaged for the spawn delay, one for the
initial progress.  `base` is the stream position of the first draw. -/
def mkEntries (r : ℕ → ℚ) (link : LinkRec) (base : ℕ) : List QueuedParticle :=
  let color := (SUBJECTIVE_COLORS link.sourceName).getD DEFAULT_COLOR
  (List.range link.value).map fun i =>
    { link := link
      color := color
      spawnDelay := (r (base + 4 * i) + r (base + 4 * i + 1) + r (base + 4 * i + 2)) / 3 * 2000
      initialProgress := r (base + 4 * i + 3) * 0.3 }

/-- The `activeLinks.forEach` loop building the unsorted queue,
threading the `Math.random()` stream position across links. -/
def buildQueue (r : ℕ → ℚ) : List LinkRec → ℕ → List QueuedParticle
  | [], _ => []
  | l :: ls, base => mkEntries r l base ++ buildQueue r ls (base + 4 * l.value)

/-- The comparator `(a, b) => a.spawnDelay - b.spawnDelay`. -/
def byDelay (a b : QueuedParticle) : Prop := a.spawnDelay ≤ b.spawnDelay

instance : DecidableRel byDelay := fun _ _ => inferInstanceAs (Decidable (_ ≤ _))

instance : IsTotal QueuedParticle byDelay := ⟨fun a b => le_total a.spawnDelay b.spawnDelay⟩

instance : IsTrans QueuedParticle byDelay := ⟨fun _ _ _ h1 h2 => le_trans h1 h2⟩

/-- `prepareParticlesForClass`: filter the links whose source is the
active class, build one descriptor per sample, and sort the queue by
ascending spawn delay (`particleQueue.sort(...)`). -/
def prepareParticlesForClass (links : List LinkRec) (className : String)
    (r : ℕ → ℚ) : List QueuedParticle :=
  let activeLinks := links.filter fun l => l.sourceName = className
  List.insertionSort byDelay (buildQueue r activeLinks 0)

/-- Sum of the values of the links whose source is the given class (the
exact particle count the spec requires per activation). -/
def classTotal (links : List LinkRec) (className : String) : ℕ :=
  ((links.filter fun l => l.sourceName = className).map (·.value)).sum

/-! ### Animation state and the `animate` frame loop -/

/-- The per-year animation state object (the fields the frame loop reads
and writes; the static `graph`/`nodes`/`links` fields are carried as the
`links` parameter of `stepFrame` instead). -/
structure AnimState where
  particles : List Particle
  currentClassIndex : ℕ
  classTimer : ℚ
  particleDuration : ℚ
  waitAfterParticles : ℚ
  isAnimating : Bool
  particlesToSpawn : List QueuedParticle
  spawnIndex : ℕ

/-- `classTimer += deltaTime`. -/
def phaseTimerAfter (s : AnimState) (dt : ℚ) : ℚ := s.classTimer + dt

/-- The queue entries admitted by this frame's spawn `while` loop: starting
at `spawnIndex`, take entries while `classTimer >= spawnDelay`. -/
def pendingSpawns (s : AnimState) (timer : ℚ) : List QueuedParticle :=
  (s.particlesToSpawn.drop s.spawnIndex).takeWhile fun e => e.spawnDelay ≤ timer

/-- The value of `spawnIndex` after the spawn loop. -/
def spawnIndexAfter (s : AnimState) (timer : ℚ) : ℕ :=
  s.spawnIndex + (pendingSpawns s timer).length

/-- `totalPhaseDuration = 2000 + particleDuration + waitAfterParticles`. -/
def totalPhaseDuration (s : AnimState) : ℚ :=
  2000 + s.particleDuration + s.waitAfterParticles

/-- The particles constructed for the admitted queue entries, in queue
order; the `j`-th spawned particle consumes constructor draws starting at
stream position `5 * j`. -/
def spawnParticles (rc : ℕ → ℚ) (currentTime : ℚ) :
    ℕ → List QueuedParticle → List Particle
  | _, [] => []
  | j, e :: rest =>
    Particle.make e.link e.color currentTime e.initialProgress rc (5 * j) ::
      spawnParticles rc currentTime (j + 1) rest

/-- The ≈500ms opacity transition triggered on a class change: the new
active class's links go to opacity `1.0`, all others to `0.2`. -/
def linkOpacities (links : List LinkRec) (activeClass : String) :
    List (LinkRec × ℚ) :=
  links.map fun l => (l, if l.sourceName = activeClass then 1 else 0.2)

/-- The command handed to the d3 transition on a class change. -/
structure TransitionCmd where
  duration : ℚ
  opacities : List (LinkRec × ℚ)
deriving DecidableEq

/-- The class-transition condition of `animate`:
`allParticlesSpawned && classTimer >= totalPhaseDuration` (both evaluated
after this frame's timer increment and spawn loop). -/
def advanceCond (s : AnimState) (dt : ℚ) : Prop :=
  s.particlesToSpawn.length ≤ spawnIndexAfter s (phaseTimerAfter s dt) ∧
  totalPhaseDuration s ≤ phaseTimerAfter s dt

instance (s : AnimState) (dt : ℚ) : Decidable (advanceCond s dt) := by
  unfold advanceCond; infer_instance

/-- Everything one invocation of `animate` does: the new state, the canvas
commands issued, the opacity transition (if the class advanced), and
whether `requestAnimationFrame` was called again. -/
structure FrameResult where
  state : AnimState
  ops : List DrawOp
  transition : Option TransitionCmd
  reschedule : Bool

/-- One invocation of the `animate(currentTime)` frame callback.

* early return when the stop flag is observed (`!isAnimating`);
* `classTimer += deltaTime`;
* spawn loop: admit queued descriptors while `classTimer >= spawnDelay`;
* `particles.filter`: update every live particle (including the ones
  spawned this frame) with the frame delta, draw the survivors, drop the
  completed ones;
* class transition once all descriptors are spawned and
  `classTimer >= totalPhaseDuration`: advance circularly, clear particles,
  reset the timer, regenerate the queue, emit the opacity transition;
* reschedule via `requestAnimationFrame`. -/
def stepFrame (jsSqrt jsSin : ℚ → ℚ) (links : List LinkRec) (r rc : ℕ → ℚ)
    (sampler : LinkRec → Option (ℚ → Point)) (s : AnimState)
    (dt currentTime : ℚ) : FrameResult :=
  if s.isAnimating then
    let timer := phaseTimerAfter s dt
    let newParticles := spawnParticles rc currentTime s.spawnIndex (pendingSpawns s timer)
    let spawnIdx := spawnIndexAfter s timer
    let stepped := (s.particles ++ newParticles).map fun p => p.update dt
    let alive := (stepped.filter fun pb => pb.2).map fun pb => pb.1
    let ops := (alive.map fun p => drawParticle jsSqrt jsSin (sampler p.link) p).flatten
    if advanceCond s dt then
      let nextIdx := (s.currentClassIndex + 1) % CLASS_ORDER.length
      let nextClass := CLASS_ORDER.getD nextIdx ""
      { state := { s with
          classTimer := 0
          currentClassIndex := nextIdx
          particles := []
          spawnIndex := 0
          particlesToSpawn := prepareParticlesForClass links nextClass r }
        ops := ops
        transition := some { duration := 500, opacities := linkOpacities links nextClass }
        reschedule := true }
    else
      { state := { s with classTimer := timer, particles := alive, spawnIndex := spawnIdx }
        ops := ops
        transition := none
        reschedule := true }
  else
    { state := s, ops := [], transition := none, reschedule := false }

/-! ### Session lifecycle (`renderAnimatedSankeyDiagram`) -/

/-- The animation state a fresh render leaves in place when the frame loop
starts: first class active, timer zero, no live particles, queue prepared
for the first class (lines 232–244 followed by 549–566 of the source). -/
def initAnimState (links : List LinkRec) (r : ℕ → ℚ) : AnimState :=
  { particles := []
    currentClassIndex := 0
    classTimer := 0
    particleDuration := 3000
    waitAfterParticles := 2000
    isAnimating := true
    particlesToSpawn := prepareParticlesForClass links (CLASS_ORDER.getD 0 "") r
    spawnIndex := 0 }

/-- One entry of the `animationStates` registry together with the loop
instance that owns it; old entries persist as the closures captured by
already-running `animate` loops. -/
structure SessionEntry where
  year : String
  state : AnimState

/-- `renderAnimatedSankeyDiagram` for year `year`: set the stop flag on
any existing animation state for that year, then install a fresh state
with a running loop. -/
def renderAnimatedSankeyDiagram (year : String) (links : List LinkRec)
    (r : ℕ → ℚ) (sessions : List SessionEntry) : List SessionEntry :=
  (sessions.map fun e =>
    if e.year = year then { e with state := { e.state with isAnimating := false } } else e)
  ++ [{ year := year, state := initAnimState links r }]

/-- Number of loop instances for `year` whose frame callbacks still run. -/
def activeLoopCount (year : String) (sessions : List SessionEntry) : ℕ :=
  (sessions.filter fun e => e.year == year && e.state.isAnimating).length

/-! ### Derived definitions used by the specification statements -/

/-- The stroke width the static overlay renders for a link:
`Math.max(1, d.width)` (line 366 of the source). -/
def renderedLinkStrokeWidth (w : ℚ) : ℚ := max 1 w

/-- Modelled from the spec: the Layout Engine (the external `d3.sankey()`
call, not part of this repository's sources) computes each link's band
width proportional to its weight — "computed width (∝ weight)"; `ky` is
the layout's vertical scale factor. -/
def layoutLinkWidth (ky : ℚ) (value : ℕ) : ℚ := ky * (value : ℚ)

/-- A particle after a sequence of frame updates with the given deltas. -/
def runUpdates (p : Particle) (dts : List ℚ) : Particle :=
  dts.foldl (fun q d => (q.update d).1) p

/-- The particles that survive a frame: every live particle updated with
the frame delta, keeping exactly those with `progress < 1`. -/
def survivors (l : List Particle) (dt : ℚ) : List Particle :=
  (l.map fun p => (p.update dt).1).filter fun p => p.progress < 1

/-- Range contract of the host's `Math.random()`: every draw lies in
`[0, 1)`. -/
def RandOK (r : ℕ → ℚ) : Prop := ∀ i, 0 ≤ r i ∧ r i < 1

/-- Well-formedness of a spawn queue as produced by
`prepareParticlesForClass` under `RandOK`: sorted by ascending delay, all
delays in `[0, 2000)`, all initial progresses nonnegative. -/
def QueueOK (q : List QueuedParticle) : Prop :=
  q.Sorted byDelay ∧
  ∀ e ∈ q, 0 ≤ e.spawnDelay ∧ e.spawnDelay < 2000 ∧ 0 ≤ e.initialProgress

/-- The frame-loop invariant: default phase durations, a well-formed
queue, a spawn cursor within bounds, no queue entry behind the cursor
still pending (`classTimer ≤` every unspawned delay), and every live
particle incomplete, at default speed, with progress at least
`(classTimer - 2000) / 3000`. -/
def Inv (s : AnimState) : Prop :=
  s.particleDuration = 3000 ∧
  s.waitAfterParticles = 2000 ∧
  QueueOK s.particlesToSpawn ∧
  s.spawnIndex ≤ s.particlesToSpawn.length ∧
  (∀ e ∈ s.particlesToSpawn.drop s.spawnIndex, s.classTimer ≤ e.spawnDelay) ∧
  (∀ p ∈ s.particles,
    p.progress < 1 ∧ (s.classTimer - 2000) / 3000 ≤ p.progress ∧ p.speed = 1 / 3000)

/-! ### Concrete instances used by witnesses and counterexamples -/

/-- A concrete `Math.random()` stream: every draw is `1/2`. -/
def rHalf : ℕ → ℚ := fun _ => 1/2

/-- A concrete host square root for witnesses (`sqrtZero 0 = 0`, as IEEE
`Math.sqrt(0)` requires). -/
def sqrtZero : ℚ → ℚ := fun _ => 0

/-- A concrete host sine for witnesses. -/
def sinZero : ℚ → ℚ := fun _ => 0

/-- A sampler whose every curve is degenerate. -/
def noSampler : LinkRec → Option (ℚ → Point) := fun _ => none

/-- A concrete one-sample link out of the first class. -/
def testLink : LinkRec :=
  { sourceName := "下層階級", targetName := "低", value := 1, width := 10 }

/-- A concrete zero-weight link out of the first class. -/
def zeroLink : LinkRec :=
  { sourceName := "下層階級", targetName := "低", value := 0,
    width := layoutLinkWidth 3 0 }

/-! ## Supporting lemmas -/

theorem update_progress (p : Particle) (dt : ℚ) :
    (p.update dt).1.progress = p.progress + p.speed * dt := rfl

theorem update_speed (p : Particle) (dt : ℚ) : (p.update dt).1.speed = p.speed := rfl

theorem update_alive (p : Particle) (dt : ℚ) :
    (p.update dt).2 = decide ((p.update dt).1.progress < 1) := rfl

theorem make_progress (link : LinkRec) (color : ℕ × ℕ × ℕ) (bt ip : ℚ)
    (rc : ℕ → ℚ) (k : ℕ) : (Particle.make link color bt ip rc k).progress = ip := rfl

theorem make_speed (link : LinkRec) (color : ℕ × ℕ × ℕ) (bt ip : ℚ)
    (rc : ℕ → ℚ) (k : ℕ) : (Particle.make link color bt ip rc k).speed = 1 / 3000 := rfl

theorem runUpdates_progress (p : Particle) (dts : List ℚ) :
    (runUpdates p dts).progress = p.progress + p.speed * dts.sum := by
  induction dts generalizing p with
  | nil => simp [runUpdates]
  | cons d rest ih =>
    have hs : (p.update d).1.speed = p.speed := update_speed p d
    have : runUpdates p (d :: rest) = runUpdates (p.update d).1 rest := rfl
    rw [this, ih, update_progress, hs, List.sum_cons]
    ring

theorem length_mkEntries (r : ℕ → ℚ) (link : LinkRec) (base : ℕ) :
    (mkEntries r link base).length = link.value := by
  simp [mkEntries]

theorem length_buildQueue (r : ℕ → ℚ) (ls : List LinkRec) (base : ℕ) :
    (buildQueue r ls base).length = (ls.map (·.value)).sum := by
  induction ls generalizing base with
  | nil => simp [buildQueue]
  | cons l rest ih => simp [buildQueue, length_mkEntries, ih]

theorem length_prepare (links : List LinkRec) (cls : String) (r : ℕ → ℚ) :
    (prepareParticlesForClass links cls r).length = classTotal links cls := by
  unfold prepareParticlesForClass classTotal
  rw [List.length_insertionSort, length_buildQueue]

theorem mem_mkEntries {r : ℕ → ℚ} {link : LinkRec} {base : ℕ} {e : QueuedParticle}
    (h : e ∈ mkEntries r link base) :
    ∃ k, e.spawnDelay = (r k + r (k + 1) + r (k + 2)) / 3 * 2000 ∧
      e.initialProgress = r (k + 3) * 0.3 := by
  simp only [mkEntries, List.mem_map, List.mem_range] at h
  obtain ⟨i, _, rfl⟩ := h
  exact ⟨base + 4 * i, rfl, rfl⟩

theorem mem_buildQueue {r : ℕ → ℚ} {ls : List LinkRec} {base : ℕ} {e : QueuedParticle}
    (h : e ∈ buildQueue r ls base) :
    ∃ k, e.spawnDelay = (r k + r (k + 1) + r (k + 2)) / 3 * 2000 ∧
      e.initialProgress = r (k + 3) * 0.3 := by
  induction ls generalizing base with
  | nil => simp [buildQueue] at h
  | cons l rest ih =>
    rw [buildQueue, List.mem_append] at h
    rcases h with h | h
    · exact mem_mkEntries h
    · exact ih h

theorem mem_prepare {links : List LinkRec} {cls : String} {r : ℕ → ℚ}
    {e : QueuedParticle} (h : e ∈ prepareParticlesForClass links cls r) :
    ∃ k, e.spawnDelay = (r k + r (k + 1) + r (k + 2)) / 3 * 2000 ∧
      e.initialProgress = r (k + 3) * 0.3 := by
  unfold prepareParticlesForClass at h
  exact mem_buildQueue ((List.mem_insertionSort byDelay).mp h)

theorem sorted_prepare (links : List LinkRec) (cls : String) (r : ℕ → ℚ) :
    (prepareParticlesForClass links cls r).Sorted byDelay :=
  List.sorted_insertionSort byDelay _

theorem rand_bounds {r : ℕ → ℚ} (hr : RandOK r) {e : QueuedParticle} {k : ℕ}
    (hd : e.spawnDelay = (r k + r (k + 1) + r (k + 2)) / 3 * 2000)
    (hp : e.initialProgress = r (k + 3) * 0.3) :
    0 ≤ e.spawnDelay ∧ e.spawnDelay < 2000 ∧
      0 ≤ e.initialProgress ∧ e.initialProgress < 0.3 := by
  obtain ⟨h0, h1⟩ := hr k
  obtain ⟨h2, h3⟩ := hr (k + 1)
  obtain ⟨h4, h5⟩ := hr (k + 2)
  obtain ⟨h6, h7⟩ := hr (k + 3)
  rw [hd, hp]
  refine ⟨by positivity, by nlinarith, by positivity, by nlinarith⟩

theorem prepare_QueueOK (links : List LinkRec) (cls : String) {r : ℕ → ℚ}
    (hr : RandOK r) : QueueOK (prepareParticlesForClass links cls r) := by
  refine ⟨sorted_prepare links cls r, fun e he => ?_⟩
  obtain ⟨k, hd, hp⟩ := mem_prepare he
  obtain ⟨b0, b1, b2, _⟩ := rand_bounds hr hd hp
  exact ⟨b0, b1, b2⟩

theorem takeWhile_index_iff {q : List QueuedParticle} (hs : q.Sorted byDelay)
    (T : ℚ) : ∀ {j : ℕ} (hj : j < q.length),
    (j < (q.takeWhile fun e => e.spawnDelay ≤ T).length ↔
      (q.get ⟨j, hj⟩).spawnDelay ≤ T) := by
  induction q with
  | nil => intro j hj; simp at hj
  | cons a q ih =>
    intro j hj
    rw [List.sorted_cons] at hs
    by_cases ha : a.spawnDelay ≤ T
    · rw [List.takeWhile_cons, if_pos (by simpa using ha)]
      cases j with
      | zero => simpa using ha
      | succ j =>
        have hj2 : j < q.length := by simpa using hj
        simpa using ih hs.2 hj2
    · rw [List.takeWhile_cons, if_neg (by simpa using ha)]
      cases j with
      | zero => simpa using ha
      | succ j =>
        have hj2 : j < q.length := by simpa using hj
        simp only [List.length_nil, Nat.not_lt_zero, false_iff]
        intro hle
        exact ha (le_trans (hs.1 _ (q.get_mem j hj2)) hle)

theorem mem_dropWhile_lt {q : List QueuedParticle} (hs : q.Sorted byDelay) (T : ℚ) :
    ∀ e ∈ q.dropWhile (fun e => e.spawnDelay ≤ T), T < e.spawnDelay := by
  induction q with
  | nil => intro e he; simp at he
  | cons a q ih =>
    intro e he
    rw [List.sorted_cons] at hs
    rw [List.dropWhile_cons] at he
    by_cases ha : a.spawnDelay ≤ T
    · rw [if_pos (by simpa using ha)] at he
      exact ih hs.2 e he
    · rw [if_neg (by simpa using ha)] at he
      push_neg at ha
      rcases List.mem_cons.mp he with rfl | he2
      · exact ha
      · exact lt_of_lt_of_le ha (hs.1 e he2)

theorem pendingSpawns_sub_drop (s : AnimState) (timer : ℚ) :
    ∀ e ∈ pendingSpawns s timer, e ∈ s.particlesToSpawn.drop s.spawnIndex :=
  fun _ he => (List.takeWhile_prefix _).sublist.subset he

theorem pendingSpawns_sub_queue (s : AnimState) (timer : ℚ) :
    ∀ e ∈ pendingSpawns s timer, e ∈ s.particlesToSpawn :=
  fun e he => List.drop_subset _ _ (pendingSpawns_sub_drop s timer e he)

theorem pendingSpawns_due (s : AnimState) (timer : ℚ) :
    ∀ e ∈ pendingSpawns s timer, e.spawnDelay ≤ timer := by
  intro e he
  simpa using List.mem_takeWhile_imp he

theorem spawnIndexAfter_le (s : AnimState) (timer : ℚ)
    (h : s.spawnIndex ≤ s.particlesToSpawn.length) :
    spawnIndexAfter s timer ≤ s.particlesToSpawn.length := by
  have h1 : (pendingSpawns s timer).length ≤ (s.particlesToSpawn.drop s.spawnIndex).length :=
    (List.takeWhile_prefix _).sublist.length_le
  rw [List.length_drop] at h1
  unfold spawnIndexAfter
  omega

theorem drop_spawnIndexAfter (s : AnimState) (timer : ℚ) :
    s.particlesToSpawn.drop (spawnIndexAfter s timer) =
      (s.particlesToSpawn.drop s.spawnIndex).dropWhile fun e => e.spawnDelay ≤ timer := by
  unfold spawnIndexAfter pendingSpawns
  rw [← List.drop_drop]
  have h := List.drop_left
    ((s.particlesToSpawn.drop s.spawnIndex).takeWhile fun e => e.spawnDelay ≤ timer)
    ((s.particlesToSpawn.drop s.spawnIndex).dropWhile fun e => e.spawnDelay ≤ timer)
  rwa [List.takeWhile_append_dropWhile] at h

theorem mem_spawnParticles {rc : ℕ → ℚ} {ct : ℚ} :
    ∀ {j : ℕ} {q : List QueuedParticle} {p : Particle},
    p ∈ spawnParticles rc ct j q →
    ∃ e ∈ q, ∃ k, p = Particle.make e.link e.color ct e.initialProgress rc k := by
  intro j q
  induction q generalizing j with
  | nil => intro p hp; simp [spawnParticles] at hp
  | cons e rest ih =>
    intro p hp
    rw [spawnParticles] at hp
    rcases List.mem_cons.mp hp with rfl | hp2
    · exact ⟨e, List.mem_cons_self e rest, 5 * j, rfl⟩
    · obtain ⟨e2, he2, k, hk⟩ := ih hp2
      exact ⟨e2, List.mem_cons_of_mem e he2, k, hk⟩

theorem aliveList_eq (l : List Particle) (dt : ℚ) :
    (((l.map fun p => p.update dt).filter fun pb => pb.2).map fun pb => pb.1)
      = survivors l dt := by
  induction l with
  | nil => rfl
  | cons a l ih =>
    simp only [survivors, List.map_cons, List.filter_cons, update_alive] at ih ⊢
    by_cases h : (a.update dt).1.progress < 1
    · simp [h, ih]
    · simp [h, ih]

theorem stepFrame_stopped (jq js : ℚ → ℚ) (links : List LinkRec) (r rc : ℕ → ℚ)
    (smp : LinkRec → Option (ℚ → Point)) (s : AnimState) (dt ct : ℚ)
    (h : s.isAnimating = false) :
    stepFrame jq js links r rc smp s dt ct =
      { state := s, ops := [], transition := none, reschedule := false } := by
  simp [stepFrame, h]

theorem stepFrame_adv (jq js : ℚ → ℚ) (links : List LinkRec) (r rc : ℕ → ℚ)
    (smp : LinkRec → Option (ℚ → Point)) (s : AnimState) (dt ct : ℚ)
    (hA : s.isAnimating = true) (hc : advanceCond s dt) :
    stepFrame jq js links r rc smp s dt ct =
      { state := { s with
          classTimer := 0
          currentClassIndex := (s.currentClassIndex + 1) % CLASS_ORDER.length
          particles := []
          spawnIndex := 0
          particlesToSpawn := prepareParticlesForClass links
            (CLASS_ORDER.getD ((s.currentClassIndex + 1) % CLASS_ORDER.length) "") r }
        ops := ((survivors
            (s.particles ++ spawnParticles rc ct s.spawnIndex
              (pendingSpawns s (phaseTimerAfter s dt))) dt).map
          fun p => drawParticle jq js (smp p.link) p).flatten
        transition := some ⟨500, linkOpacities links
            (CLASS_ORDER.getD ((s.currentClassIndex + 1) % CLASS_ORDER.length) "")⟩
        reschedule := true } := by
  rw [← aliveList_eq]
  simp [stepFrame, hA, hc]

theorem stepFrame_no_adv (jq js : ℚ → ℚ) (links : List LinkRec) (r rc : ℕ → ℚ)
    (smp : LinkRec → Option (ℚ → Point)) (s : AnimState) (dt ct : ℚ)
    (hA : s.isAnimating = true) (hc : ¬ advanceCond s dt) :
    stepFrame jq js links r rc smp s dt ct =
      { state := { s with
          classTimer := phaseTimerAfter s dt
          particles := survivors
            (s.particles ++ spawnParticles rc ct s.spawnIndex
              (pendingSpawns s (phaseTimerAfter s dt))) dt
          spawnIndex := spawnIndexAfter s (phaseTimerAfter s dt) }
        ops := ((survivors
            (s.particles ++ spawnParticles rc ct s.spawnIndex
              (pendingSpawns s (phaseTimerAfter s dt))) dt).map
          fun p => drawParticle jq js (smp p.link) p).flatten
        transition := none
        reschedule := true } := by
  rw [← aliveList_eq]
  simp [stepFrame, hA, hc]

theorem mem_survivors {l : List Particle} {dt : ℚ} {q : Particle} :
    q ∈ survivors l dt ↔ (∃ p ∈ l, (p.update dt).1 = q) ∧ q.progress < 1 := by
  simp [survivors, List.mem_filter, List.mem_map]

theorem init_Inv {links : List LinkRec} {r : ℕ → ℚ} (hr : RandOK r) :
    Inv (initAnimState links r) := by
  obtain ⟨hs, hb⟩ := prepare_QueueOK links (CLASS_ORDER.getD 0 "") hr
  refine ⟨rfl, rfl, ⟨hs, hb⟩, Nat.zero_le _, ?_, ?_⟩
  · intro e he
    rw [show (initAnimState links r).spawnIndex = 0 from rfl, List.drop_zero] at he
    exact (hb e he).1
  · intro p hp
    simp [initAnimState] at hp

theorem survivors_empty_of_adv (rc : ℕ → ℚ) (ct : ℚ) {s : AnimState} {dt : ℚ}
    (hI : Inv s) (hc : advanceCond s dt) :
    survivors (s.particles ++ spawnParticles rc ct s.spawnIndex
      (pendingSpawns s (phaseTimerAfter s dt))) dt = [] := by
  obtain ⟨hpd, hwap, ⟨hsort, hbounds⟩, hle, hunspawned, hparts⟩ := hI
  have htimer : (7000 : ℚ) ≤ phaseTimerAfter s dt := by
    have h2 := hc.2
    unfold totalPhaseDuration at h2
    rw [hpd, hwap] at h2
    linarith
  have htimer2 : s.classTimer + dt = phaseTimerAfter s dt := rfl
  unfold survivors
  rw [List.filter_eq_nil_iff]
  intro q hq
  simp only [List.mem_map] at hq
  obtain ⟨p, hp, rfl⟩ := hq
  simp only [decide_eq_true_eq, not_lt]
  rw [update_progress]
  rcases List.mem_append.mp hp with hold | hnew
  · obtain ⟨_, hge, hspeed⟩ := hparts p hold
    rw [hspeed]
    linarith
  · obtain ⟨e, he, k, rfl⟩ := mem_spawnParticles hnew
    have hdelay1 : s.classTimer ≤ e.spawnDelay :=
      hunspawned e (pendingSpawns_sub_drop s _ e he)
    have hdelay2 : e.spawnDelay < 2000 :=
      (hbounds e (pendingSpawns_sub_queue s _ e he)).2.1
    have hip : 0 ≤ e.initialProgress :=
      (hbounds e (pendingSpawns_sub_queue s _ e he)).2.2
    rw [make_progress, make_speed]
    linarith

theorem step_preserves_Inv (jq js : ℚ → ℚ) (links : List LinkRec) (r rc : ℕ → ℚ)
    (smp : LinkRec → Option (ℚ → Point)) (s : AnimState) (dt ct : ℚ)
    (hr : RandOK r) (hI : Inv s) :
    Inv (stepFrame jq js links r rc smp s dt ct).state := by
  by_cases hA : s.isAnimating = true
  · by_cases hc : advanceCond s dt
    · rw [stepFrame_adv jq js links r rc smp s dt ct hA hc]
      obtain ⟨hqs, hqb⟩ := prepare_QueueOK links
        (CLASS_ORDER.getD ((s.currentClassIndex + 1) % CLASS_ORDER.length) "") hr
      refine ⟨hI.1, hI.2.1, ⟨hqs, hqb⟩, Nat.zero_le _, ?_, ?_⟩
      · intro e he
        rw [List.drop_zero] at he
        exact (hqb e he).1
      · intro p hp
        simp at hp
    · rw [stepFrame_no_adv jq js links r rc smp s dt ct hA hc]
      obtain ⟨hpd, hwap, ⟨hsort, hbounds⟩, hle, hunspawned, hparts⟩ := hI
      refine ⟨hpd, hwap, ⟨hsort, hbounds⟩, spawnIndexAfter_le s _ hle, ?_, ?_⟩
      · intro e he
        rw [drop_spawnIndexAfter] at he
        have hsort2 : (s.particlesToSpawn.drop s.spawnIndex).Sorted byDelay :=
          List.Pairwise.sublist (List.drop_sublist _ _) hsort
        exact le_of_lt (mem_dropWhile_lt hsort2 _ e he)
      · intro q hq
        rw [mem_survivors] at hq
        obtain ⟨⟨p, hp, rfl⟩, hlt⟩ := hq
        refine ⟨hlt, ?_, ?_⟩
        · rw [update_progress]
          rcases List.mem_append.mp hp with hold | hnew
          · obtain ⟨_, hge, hspeed⟩ := hparts p hold
            rw [hspeed]
            have : phaseTimerAfter s dt = s.classTimer + dt := rfl
            rw [this]
            linarith
          · obtain ⟨e, he, k, rfl⟩ := mem_spawnParticles hnew
            have hdelay1 : s.classTimer ≤ e.spawnDelay :=
              hunspawned e (pendingSpawns_sub_drop s _ e he)
            have hdelay2 : e.spawnDelay < 2000 :=
              (hbounds e (pendingSpawns_sub_queue s _ e he)).2.1
            have hip : 0 ≤ e.initialProgress :=
              (hbounds e (pendingSpawns_sub_queue s _ e he)).2.2
            rw [make_progress, make_speed]
            have : phaseTimerAfter s dt = s.classTimer + dt := rfl
            rw [this]
            linarith
        · rw [update_speed]
          rcases List.mem_append.mp hp with hold | hnew
          · exact (hparts p hold).2.2
          · obtain ⟨e, he, k, rfl⟩ := mem_spawnParticles hnew
            exact make_speed _ _ _ _ _ _
  · rw [stepFrame_stopped jq js links r rc smp s dt ct (by simpa using hA)]
    exact hI

theorem randOK_rHalf : RandOK rHalf := by
  intro i
  constructor <;> norm_num [rHalf]

theorem activeLoopCount_render (year : String) (links : List LinkRec)
    (r : ℕ → ℚ) (sessions : List SessionEntry) :
    activeLoopCount year (renderAnimatedSankeyDiagram year links r sessions) = 1 := by
  unfold activeLoopCount renderAnimatedSankeyDiagram
  rw [List.filter_append]
  have h1 : ((sessions.map fun e =>
      if e.year = year then { e with state := { e.state with isAnimating := false } }
      else e).filter fun e => e.year == year && e.state.isAnimating) = [] := by
    rw [List.filter_eq_nil_iff]
    intro e he
    rw [List.mem_map] at he
    obtain ⟨e0, _, rfl⟩ := he
    by_cases hy : e0.year = year
    · simp [hy]
    · simp [hy]
  rw [h1]
  simp [initAnimState]

/-! ## Claim theorems -/

/-- C1: during one activation of a class, `prepareParticlesForClass`
creates exactly (sum of the values of the links whose source node is that
class) particle descriptors — one per underlying sample — and the frame
loop can fire the class transition only in a frame whose spawn loop has
admitted every queued descriptor. -/
theorem C1_exact_particle_accounting (jq js : ℚ → ℚ) (links : List LinkRec)
    (cls : String) (r rc : ℕ → ℚ) (smp : LinkRec → Option (ℚ → Point))
    (s : AnimState) (dt ct : ℚ) (hA : s.isAnimating = true)
    (hle : s.spawnIndex ≤ s.particlesToSpawn.length) :
    (prepareParticlesForClass links cls r).length = classTotal links cls ∧
    ((stepFrame jq js links r rc smp s dt ct).transition.isSome →
      spawnIndexAfter s (phaseTimerAfter s dt) = s.particlesToSpawn.length) := by
  refine ⟨length_prepare links cls r, fun hsome => ?_⟩
  have hc : advanceCond s dt := by
    by_contra hc
    rw [stepFrame_no_adv jq js links r rc smp s dt ct hA hc] at hsome
    simp at hsome
  exact le_antisymm (spawnIndexAfter_le s _ hle) hc.1

theorem C1_witness :
    (prepareParticlesForClass [testLink] "下層階級" rHalf).length =
      classTotal [testLink] "下層階級" ∧
    ((stepFrame sqrtZero sinZero [testLink] rHalf rHalf noSampler
        (initAnimState [testLink] rHalf) 8000 0).transition.isSome →
      spawnIndexAfter (initAnimState [testLink] rHalf)
          (phaseTimerAfter (initAnimState [testLink] rHalf) 8000) =
        (initAnimState [testLink] rHalf).particlesToSpawn.length) :=
  C1_exact_particle_accounting sqrtZero sinZero [testLink] "下層階級" rHalf rHalf
    noSampler (initAnimState [testLink] rHalf) 8000 0 rfl (Nat.zero_le _)

/-- C3: the scheduler advances to the next class (circularly through
`CLASS_ORDER`) iff the phase timer has reached
`2000 + particleDuration + waitAfterParticles` (2000+3000+2000 ms at the
defaults) AND the spawn queue is fully drained; on that transition it
resets the timer to 0, clears all remaining live particles, regenerates
the spawn queue for the new class, and emits a 500 ms opacity transition
setting the new class's links to opacity 1.0 and all others to 0.2; it
never advances before both conditions hold. -/
theorem C3_transition_rule (jq js : ℚ → ℚ) (links : List LinkRec) (r rc : ℕ → ℚ)
    (smp : LinkRec → Option (ℚ → Point)) (s : AnimState) (dt ct : ℚ)
    (hA : s.isAnimating = true) :
    ((stepFrame jq js links r rc smp s dt ct).transition.isSome ↔
      (s.particlesToSpawn.length ≤ spawnIndexAfter s (phaseTimerAfter s dt) ∧
        totalPhaseDuration s ≤ phaseTimerAfter s dt)) ∧
    (s.particleDuration = 3000 → s.waitAfterParticles = 2000 →
      totalPhaseDuration s = 2000 + 3000 + 2000) ∧
    ((stepFrame jq js links r rc smp s dt ct).transition.isSome →
      (stepFrame jq js links r rc smp s dt ct).state.currentClassIndex =
        (s.currentClassIndex + 1) % CLASS_ORDER.length ∧
      (stepFrame jq js links r rc smp s dt ct).state.classTimer = 0 ∧
      (stepFrame jq js links r rc smp s dt ct).state.particles = [] ∧
      (stepFrame jq js links r rc smp s dt ct).state.spawnIndex = 0 ∧
      (stepFrame jq js links r rc smp s dt ct).state.particlesToSpawn =
        prepareParticlesForClass links
          (CLASS_ORDER.getD ((s.currentClassIndex + 1) % CLASS_ORDER.length) "") r ∧
      (stepFrame jq js links r rc smp s dt ct).transition =
        some ⟨500, linkOpacities links
          (CLASS_ORDER.getD ((s.currentClassIndex + 1) % CLASS_ORDER.length) "")⟩) := by
  by_cases hc : advanceCond s dt
  · rw [stepFrame_adv jq js links r rc smp s dt ct hA hc]
    refine ⟨⟨fun _ => hc, fun _ => by simp⟩, ?_, ?_⟩
    · intro h1 h2
      unfold totalPhaseDuration
      rw [h1, h2]
    · intro _
      exact ⟨rfl, rfl, rfl, rfl, rfl, rfl⟩
  · rw [stepFrame_no_adv jq js links r rc smp s dt ct hA hc]
    refine ⟨iff_of_false (by simp) hc, ?_, ?_⟩
    · intro h1 h2
      unfold totalPhaseDuration
      rw [h1, h2]
    · intro h
      simp at h

theorem C3_witness :
    (stepFrame sqrtZero sinZero [] rHalf rHalf noSampler
      (initAnimState [] rHalf) 7000 0).transition.isSome ∧
    (stepFrame sqrtZero sinZero [] rHalf rHalf noSampler
      (initAnimState [] rHalf) 7000 0).state.classTimer = 0 ∧
    (stepFrame sqrtZero sinZero [] rHalf rHalf noSampler
      (initAnimState [] rHalf) 7000 0).state.particles = [] := by
  have h := C3_transition_rule sqrtZero sinZero [] rHalf rHalf noSampler
    (initAnimState [] rHalf) 7000 0 rfl
  have hsome : (stepFrame sqrtZero sinZero [] rHalf rHalf noSampler
      (initAnimState [] rHalf) 7000 0).transition.isSome :=
    (h.1).mpr ⟨by decide,
      by norm_num [totalPhaseDuration, phaseTimerAfter, initAnimState]⟩
  exact ⟨hsome, (h.2.2 hsome).2.1, (h.2.2 hsome).2.2.1⟩

/-- C4: when a particle's curve is degenerate so that no sample point can
be obtained (`sampler = none`), drawing emits no command for it this
frame, and the sampling outcome has no effect whatsoever on the resulting
animation state — the particle stays in the live collection (to be
retried next frame) and is never removed for this reason alone. -/
theorem C4_degenerate_curve_skip (jq js : ℚ → ℚ) (links : List LinkRec)
    (r rc : ℕ → ℚ) (s : AnimState) (dt ct : ℚ)
    (smp1 smp2 : LinkRec → Option (ℚ → Point)) :
    (stepFrame jq js links r rc smp1 s dt ct).state =
      (stepFrame jq js links r rc smp2 s dt ct).state ∧
    (stepFrame jq js links r rc smp1 s dt ct).transition =
      (stepFrame jq js links r rc smp2 s dt ct).transition ∧
    (stepFrame jq js links r rc smp1 s dt ct).reschedule =
      (stepFrame jq js links r rc smp2 s dt ct).reschedule ∧
    (∀ p : Particle, drawParticle jq js none p = []) := by
  have hd : ∀ p : Particle, drawParticle jq js none p = [] := by
    intro p
    unfold drawParticle
    split <;> rfl
  by_cases hA : s.isAnimating = true
  · by_cases hc : advanceCond s dt
    · rw [stepFrame_adv jq js links r rc smp1 s dt ct hA hc,
        stepFrame_adv jq js links r rc smp2 s dt ct hA hc]
      exact ⟨rfl, rfl, rfl, hd⟩
    · rw [stepFrame_no_adv jq js links r rc smp1 s dt ct hA hc,
        stepFrame_no_adv jq js links r rc smp2 s dt ct hA hc]
      exact ⟨rfl, rfl, rfl, hd⟩
  · rw [stepFrame_stopped jq js links r rc smp1 s dt ct (by simpa using hA),
      stepFrame_stopped jq js links r rc smp2 s dt ct (by simpa using hA)]
    exact ⟨rfl, rfl, rfl, hd⟩

/-- C5 counterexample: a link of weight 0 contributes zero queued
particle descriptors, but the static overlay renders it with stroke width
`Math.max(1, width) = 1` — not the zero width the claim states. -/
theorem C5_counterexample :
    (prepareParticlesForClass [zeroLink] "下層階級" rHalf).length = 0 ∧
    renderedLinkStrokeWidth zeroLink.width = 1 ∧
    ¬ renderedLinkStrokeWidth zeroLink.width = 0 := by
  refine ⟨by decide,
    by norm_num [renderedLinkStrokeWidth, zeroLink, layoutLinkWidth],
    by norm_num [renderedLinkStrokeWidth, zeroLink, layoutLinkWidth]⟩

/-- C5 amended: a weight-0 link contributes zero particle descriptors
during its source class's activation and its processing is total (no
error is possible), but it is rendered with stroke width
`Math.max(1, layout width)` — i.e. the 1-pixel floor, not zero width. -/
theorem C5_zero_weight_link (links : List LinkRec) (cls : String) (r : ℕ → ℚ)
    (ky : ℚ) (link : LinkRec) (hv : link.value = 0) :
    (∀ base, mkEntries r link base = []) ∧
    (prepareParticlesForClass (link :: links) cls r).length =
      (prepareParticlesForClass links cls r).length ∧
    renderedLinkStrokeWidth (layoutLinkWidth ky 0) = 1 := by
  refine ⟨?_, ?_, ?_⟩
  · intro base
    simp [mkEntries, hv]
  · rw [length_prepare, length_prepare]
    unfold classTotal
    by_cases hsl : link.sourceName = cls
    · simp [List.filter_cons, hsl, hv]
    · simp [List.filter_cons, hsl]
  · unfold renderedLinkStrokeWidth layoutLinkWidth
    norm_num

theorem C5_witness :
    (∀ base, mkEntries rHalf zeroLink base = []) ∧
    (prepareParticlesForClass [zeroLink] "下層階級" rHalf).length =
      (prepareParticlesForClass [] "下層階級" rHalf).length ∧
    renderedLinkStrokeWidth (layoutLinkWidth 3 0) = 1 :=
  C5_zero_weight_link [] "下層階級" rHalf 3 zeroLink rfl

/-- C8: re-invoking the render operation for the same year leaves exactly
one active animation loop — every previously installed state for that
year has its stop flag set — and a loop instance whose stop flag is set
observes it at the top of its frame callback: it updates nothing, draws
nothing, and does not reschedule itself. -/
theorem C8_single_active_loop (year : String) (links links2 : List LinkRec)
    (r r2 : ℕ → ℚ) (sessions : List SessionEntry) :
    activeLoopCount year (renderAnimatedSankeyDiagram year links2 r2
      (renderAnimatedSankeyDiagram year links r sessions)) = 1 ∧
    ∀ (jq js : ℚ → ℚ) (links3 : List LinkRec) (r3 rc : ℕ → ℚ)
      (smp : LinkRec → Option (ℚ → Point)) (s : AnimState) (dt ct : ℚ),
      s.isAnimating = false →
      stepFrame jq js links3 r3 rc smp s dt ct =
        { state := s, ops := [], transition := none, reschedule := false } :=
  ⟨activeLoopCount_render year links2 r2 _,
    fun jq js links3 r3 rc smp s dt ct h =>
      stepFrame_stopped jq js links3 r3 rc smp s dt ct h⟩

theorem C8_witness :
    activeLoopCount "1992" (renderAnimatedSankeyDiagram "1992" [] rHalf
      (renderAnimatedSankeyDiagram "1992" [testLink] rHalf [])) = 1 ∧
    stepFrame sqrtZero sinZero [] rHalf rHalf noSampler
        { initAnimState [] rHalf with isAnimating := false } 5 0 =
      { state := { initAnimState [] rHalf with isAnimating := false },
        ops := [], transition := none, reschedule := false } :=
  ⟨(C8_single_active_loop "1992" [testLink] [] rHalf rHalf []).1,
    (C8_single_active_loop "1992" [testLink] [] rHalf rHalf []).2
      sqrtZero sinZero [] rHalf rHalf noSampler
      { initAnimState [] rHalf with isAnimating := false } 5 0 rfl⟩

/-- C10: drawing a particle never divides by zero — the perpendicular
direction divides the tangent difference by its length only under the
`0 < length` guard — and when the two sampled points coincide the
perpendicular components stay 0 and the particle is drawn on the path
centerline. -/
theorem C10_no_division_by_zero (jq js : ℚ → ℚ) (h0 : jq 0 = 0) :
    (∀ (p : Particle) (c : Point), particlePos jq js p c c = c) ∧
    (∀ c t : Point,
      0 < jq ((t.1 - c.1) * (t.1 - c.1) + (t.2 - c.2) * (t.2 - c.2)) ∨
        perpUnit jq c t = (0, 0)) := by
  constructor
  · intro p c
    unfold particlePos perpUnit
    simp [h0]
  · intro c t
    by_cases h : 0 < jq ((t.1 - c.1) * (t.1 - c.1) + (t.2 - c.2) * (t.2 - c.2))
    · exact Or.inl h
    · right
      unfold perpUnit
      rw [if_neg h]

theorem C10_witness :
    particlePos sqrtZero sinZero
      (Particle.make testLink (160, 128, 128) 0 0 rHalf 0) (3, 4) (3, 4) = (3, 4) :=
  (C10_no_division_by_zero sqrtZero sinZero rfl).1 _ _

/-- C2 counterexample: a particle spawned with initial progress
`0.5 * 0.3 = 0.15` (exactly the initial-progress value
`prepareParticlesForClass` produces from a `Math.random()` draw of 0.5)
reaches progress ≥ 1 after 2999 ms of update time — strictly before the
configured 3000 ms travel time — refuting "completes its journey
(reaches progress 1 from its spawn) in exactly the configured travel
time". -/
theorem C2_counterexample :
    1 ≤ ((Particle.make testLink (160, 128, 128) 0 (rHalf 3 * 0.3) rHalf 0).update
        2999).1.progress ∧
    (2999 : ℚ) < 3000 := by
  constructor
  · rw [update_progress, make_progress, make_speed]
    norm_num [rHalf]
  · norm_num

/-- C2 amended: each per-frame update adds speed·Δt to progress with
constant speed = 1/travelDuration = 1/3000; a particle spawned at initial
progress p₀ reaches progress 1 after exactly (1 − p₀)·3000 ms of
accumulated update time — at most the configured travel time, with
equality only when p₀ = 0 — independent of when within the spawn window
it spawned; and each particle's initial progress is a `Math.random()`
draw scaled into [0, 0.3). -/
theorem C2_travel_time (link : LinkRec) (color : ℕ × ℕ × ℕ) (bt p0 : ℚ)
    (rc : ℕ → ℚ) (k : ℕ) (dts : List ℚ) (links : List LinkRec) (cls : String)
    (r : ℕ → ℚ) (hr : RandOK r) :
    (∀ (p : Particle) (d : ℚ), (p.update d).1.progress = p.progress + p.speed * d) ∧
    (Particle.make link color bt p0 rc k).speed = 1 / 3000 ∧
    (runUpdates (Particle.make link color bt p0 rc k) dts).progress =
      p0 + dts.sum / 3000 ∧
    ((1 : ℚ) ≤ (runUpdates (Particle.make link color bt p0 rc k) dts).progress ↔
      (1 - p0) * 3000 ≤ dts.sum) ∧
    (∀ e ∈ prepareParticlesForClass links cls r,
      0 ≤ e.initialProgress ∧ e.initialProgress < 0.3 ∧
        ∃ k2, e.initialProgress = r k2 * 0.3) := by
  have hrun : (runUpdates (Particle.make link color bt p0 rc k) dts).progress =
      p0 + dts.sum / 3000 := by
    rw [runUpdates_progress, make_progress, make_speed]
    ring
  refine ⟨update_progress, make_speed _ _ _ _ _ _, hrun, ?_, ?_⟩
  · rw [hrun]
    constructor <;> intro h <;> linarith
  · intro e he
    obtain ⟨k2, hd2, hp2⟩ := mem_prepare he
    obtain ⟨_, _, b2, b3⟩ := rand_bounds hr hd2 hp2
    exact ⟨b2, b3, k2 + 3, hp2⟩

theorem C2_witness :
    (1 : ℚ) ≤ (runUpdates (Particle.make testLink (160, 128, 128) 0 0.15
        rHalf 0) [2550]).progress ↔
      ((1 : ℚ) - 0.15) * 3000 ≤ ([2550] : List ℚ).sum :=
  (C2_travel_time testLink (160, 128, 128) 0 0.15 rHalf 0 [2550] [testLink]
    "下層階級" rHalf randOK_rHalf).2.2.2.1

/-- C6: every queued descriptor's spawn delay is the mean of three
`Math.random()` draws scaled over the 2000 ms spawn window, hence lies in
[0, 2000); the queue is sorted by ascending spawn delay, so particles are
admitted in ascending-delay order; and a queue entry at or past the spawn
cursor is admitted in a frame exactly when the elapsed phase time has
reached its delay. -/
theorem C6_spawn_delay (links : List LinkRec) (cls : String) (r : ℕ → ℚ)
    (hr : RandOK r) (s : AnimState) (dt : ℚ)
    (hq : s.particlesToSpawn.Sorted byDelay) (j : ℕ)
    (hj : j < s.particlesToSpawn.length) (hcur : s.spawnIndex ≤ j) :
    (∀ e ∈ prepareParticlesForClass links cls r,
      (∃ k, e.spawnDelay = (2000 * r k + 2000 * r (k + 1) + 2000 * r (k + 2)) / 3) ∧
      0 ≤ e.spawnDelay ∧ e.spawnDelay < 2000) ∧
    (prepareParticlesForClass links cls r).Sorted byDelay ∧
    (j < spawnIndexAfter s (phaseTimerAfter s dt) ↔
      (s.particlesToSpawn.get ⟨j, hj⟩).spawnDelay ≤ phaseTimerAfter s dt) := by
  refine ⟨?_, sorted_prepare links cls r, ?_⟩
  · intro e he
    obtain ⟨k, hd2, hp2⟩ := mem_prepare he
    obtain ⟨b0, b1, _, _⟩ := rand_bounds hr hd2 hp2
    refine ⟨⟨k, by rw [hd2]; ring⟩, b0, b1⟩
  · have hsort2 : (s.particlesToSpawn.drop s.spawnIndex).Sorted byDelay :=
      List.Pairwise.sublist (List.drop_sublist _ _) hq
    obtain ⟨m, rfl⟩ : ∃ m, j = s.spawnIndex + m := ⟨j - s.spawnIndex, by omega⟩
    have hm : m < (s.particlesToSpawn.drop s.spawnIndex).length := by
      rw [List.length_drop]
      omega
    have h1 := takeWhile_index_iff hsort2 (phaseTimerAfter s dt) hm
    have h2 : (s.particlesToSpawn.drop s.spawnIndex).get ⟨m, hm⟩ =
        s.particlesToSpawn.get ⟨s.spawnIndex + m, hj⟩ := by
      rw [List.get_eq_getElem, List.get_eq_getElem, List.getElem_drop]
    rw [h2] at h1
    unfold spawnIndexAfter pendingSpawns
    rw [← h1]
    exact Nat.add_lt_add_iff_left

theorem C6_witness :
    0 < spawnIndexAfter (initAnimState [testLink] rHalf)
        (phaseTimerAfter (initAnimState [testLink] rHalf) 1500) ↔
      ((initAnimState [testLink] rHalf).particlesToSpawn.get
          ⟨0, by decide⟩).spawnDelay ≤
        phaseTimerAfter (initAnimState [testLink] rHalf) 1500 :=
  (C6_spawn_delay [testLink] "下層階級" rHalf randOK_rHalf
    (initAnimState [testLink] rHalf) 1500 (by decide) 0 (by decide)
    (Nat.zero_le _)).2.2

/-- C7: particle progress is monotonically non-decreasing across updates
for non-negative frame deltas; every live particle has progress < 1; in
every animating frame the post-frame live collection is exactly the
updated particles that still have progress < 1 — so each particle is
removed exactly once, on the first update taking its progress to ≥ 1,
and the transition-time clear removes no incomplete particle (by then
the filter has already emptied the collection) — and the frame-loop
invariant is preserved. -/
theorem C7_monotonic_removal (jq js : ℚ → ℚ) (links : List LinkRec)
    (r rc : ℕ → ℚ) (smp : LinkRec → Option (ℚ → Point)) (s : AnimState)
    (dt ct : ℚ) (hr : RandOK r) (hI : Inv s) :
    (∀ (p : Particle) (d : ℚ), 0 ≤ d → 0 ≤ p.speed →
      p.progress ≤ (p.update d).1.progress) ∧
    (∀ p ∈ s.particles, p.progress < 1) ∧
    (s.isAnimating = true →
      (stepFrame jq js links r rc smp s dt ct).state.particles =
        survivors (s.particles ++ spawnParticles rc ct s.spawnIndex
          (pendingSpawns s (phaseTimerAfter s dt))) dt) ∧
    Inv (stepFrame jq js links r rc smp s dt ct).state := by
  refine ⟨?_, fun p hp => (hI.2.2.2.2.2 p hp).1, ?_,
    step_preserves_Inv jq js links r rc smp s dt ct hr hI⟩
  · intro p d hd hs
    rw [update_progress]
    have := mul_nonneg hs hd
    linarith
  · intro hA
    by_cases hc : advanceCond s dt
    · rw [stepFrame_adv jq js links r rc smp s dt ct hA hc]
      exact (survivors_empty_of_adv rc ct hI hc).symm
    · rw [stepFrame_no_adv jq js links r rc smp s dt ct hA hc]

theorem C7_witness :
    (stepFrame sqrtZero sinZero [testLink] rHalf rHalf noSampler
        (initAnimState [testLink] rHalf) 1500 0).state.particles =
      survivors ((initAnimState [testLink] rHalf).particles ++
        spawnParticles rHalf 0 (initAnimState [testLink] rHalf).spawnIndex
          (pendingSpawns (initAnimState [testLink] rHalf)
            (phaseTimerAfter (initAnimState [testLink] rHalf) 1500))) 1500 :=
  ((C7_monotonic_removal sqrtZero sinZero [testLink] rHalf rHalf noSampler
    (initAnimState [testLink] rHalf) 1500 0 randOK_rHalf
    (init_Inv randOK_rHalf)).2.2.1) rfl

theorem hue2rgb_mem {p q t : ℚ} (ht : -1 ≤ t) (hp : 0 ≤ p) (hpq : p ≤ q)
    (hq : q ≤ 1) : 0 ≤ hue2rgb p q t ∧ hue2rgb p q t ≤ 1 := by
  unfold hue2rgb
  dsimp only
  set t1 := if t < 0 then t + 1 else t with ht1d
  have h1 : 0 ≤ t1 := by
    rw [ht1d]
    split_ifs with h
    · linarith
    · linarith
  set t2 := if t1 > 1 then t1 - 1 else t1 with ht2d
  have h2 : 0 ≤ t2 := by
    rw [ht2d]
    split_ifs with h
    · linarith
    · exact h1
  have hqp : 0 ≤ q - p := by linarith
  split_ifs with ha hb hc
  · constructor
    · nlinarith [mul_nonneg hqp h2]
    · nlinarith [mul_nonneg hqp (by linarith : (0:ℚ) ≤ 1/6 - t2)]
  · exact ⟨le_trans hp hpq, hq⟩
  · constructor
    · nlinarith [mul_nonneg hqp (by linarith : (0:ℚ) ≤ 2/3 - t2)]
    · nlinarith [mul_nonneg hqp (by linarith : (0:ℚ) ≤ t2 - 1/2)]
  · exact ⟨hp, le_trans hpq hq⟩

theorem hslOf_mem (r g b : ℕ) (hr255 : r ≤ 255) (hg255 : g ≤ 255)
    (hb255 : b ≤ 255) :
    0 ≤ (hslOf r g b).1 ∧ (hslOf r g b).1 ≤ 1 ∧
    0 ≤ (hslOf r g b).2.1 ∧ (hslOf r g b).2.1 ≤ 1 ∧
    0 ≤ (hslOf r g b).2.2 ∧ (hslOf r g b).2.2 ≤ 1 := by
  have hr0 : (0 : ℚ) ≤ (r : ℚ) / 255 := by positivity
  have hg0 : (0 : ℚ) ≤ (g : ℚ) / 255 := by positivity
  have hb0 : (0 : ℚ) ≤ (b : ℚ) / 255 := by positivity
  have hr1 : (r : ℚ) / 255 ≤ 1 := by
    rw [div_le_one (by norm_num : (0:ℚ) < 255)]
    exact_mod_cast hr255
  have hg1 : (g : ℚ) / 255 ≤ 1 := by
    rw [div_le_one (by norm_num : (0:ℚ) < 255)]
    exact_mod_cast hg255
  have hb1 : (b : ℚ) / 255 ≤ 1 := by
    rw [div_le_one (by norm_num : (0:ℚ) < 255)]
    exact_mod_cast hb255
  unfold hslOf
  set rN : ℚ := (r : ℚ) / 255
  set gN : ℚ := (g : ℚ) / 255
  set bN : ℚ := (b : ℚ) / 255
  set mx := max rN (max gN bN) with hmxd
  set mn := min rN (min gN bN) with hmnd
  have hmx1 : mx ≤ 1 := max_le hr1 (max_le hg1 hb1)
  have hmn0 : 0 ≤ mn := le_min hr0 (le_min hg0 hb0)
  have hrmx : rN ≤ mx := le_max_left _ _
  have hgmx : gN ≤ mx := le_max_of_le_right (le_max_left _ _)
  have hbmx : bN ≤ mx := le_max_of_le_right (le_max_right _ _)
  have hrmn : mn ≤ rN := min_le_left _ _
  have hgmn : mn ≤ gN := le_trans (min_le_right _ _) (min_le_left _ _)
  have hbmn : mn ≤ bN := le_trans (min_le_right _ _) (min_le_right _ _)
  have hl0 : 0 ≤ (mx + mn) / 2 := by linarith
  have hl1 : (mx + mn) / 2 ≤ 1 := by linarith
  by_cases heq : mx = mn
  · rw [if_pos heq]
    exact ⟨le_refl 0, by norm_num, le_refl 0, by norm_num, hl0, hl1⟩
  · rw [if_neg heq]
    have hd : 0 < mx - mn := by
      have : mn ≤ mx := le_trans hrmn hrmx
      rcases lt_or_eq_of_le this with h | h
      · linarith
      · exact absurd h.symm heq
    have hs0 : 0 ≤ (if (mx + mn) / 2 > 1/2 then (mx - mn) / (2 - mx - mn)
        else (mx - mn) / (mx + mn)) := by
      split_ifs with hl
      · apply div_nonneg (le_of_lt hd)
        linarith
      · apply div_nonneg (le_of_lt hd)
        linarith
    have hs1 : (if (mx + mn) / 2 > 1/2 then (mx - mn) / (2 - mx - mn)
        else (mx - mn) / (mx + mn)) ≤ 1 := by
      split_ifs with hl
      · rw [div_le_one (by linarith)]
        linarith
      · have hxpos : 0 < mx + mn := by linarith
        rw [div_le_one hxpos]
        linarith
    have hh : 0 ≤ (if mx = rN then ((gN - bN) / (mx - mn) +
          if gN < bN then 6 else 0) / 6
        else if mx = gN then ((bN - rN) / (mx - mn) + 2) / 6
        else ((rN - gN) / (mx - mn) + 4) / 6) ∧
        (if mx = rN then ((gN - bN) / (mx - mn) +
          if gN < bN then 6 else 0) / 6
        else if mx = gN then ((bN - rN) / (mx - mn) + 2) / 6
        else ((rN - gN) / (mx - mn) + 4) / 6) ≤ 1 := by
      have hx1 : (gN - bN) / (mx - mn) ≤ 1 := by
        rw [div_le_one hd]
        linarith
      have hx2 : -1 ≤ (gN - bN) / (mx - mn) := by
        rw [le_div_iff₀ hd]
        linarith
      have hy1 : (bN - rN) / (mx - mn) ≤ 1 := by
        rw [div_le_one hd]
        linarith
      have hy2 : -1 ≤ (bN - rN) / (mx - mn) := by
        rw [le_div_iff₀ hd]
        linarith
      have hz1 : (rN - gN) / (mx - mn) ≤ 1 := by
        rw [div_le_one hd]
        linarith
      have hz2 : -1 ≤ (rN - gN) / (mx - mn) := by
        rw [le_div_iff₀ hd]
        linarith
      split_ifs with h1 h2 h3
      · have hxneg : (gN - bN) / (mx - mn) ≤ 0 := by
          rw [div_le_iff₀ hd]
          linarith
        constructor <;> linarith
      · have hxpos : 0 ≤ (gN - bN) / (mx - mn) := by
          apply div_nonneg _ (le_of_lt hd)
          push_neg at h2
          linarith
        constructor <;> linarith
      · constructor <;> linarith
      · constructor <;> linarith
    exact ⟨hh.1, hh.2, hs0, hs1, hl0, hl1⟩

theorem hslToRgb_mem {h s l : ℚ} (hh : 0 ≤ h) (hs0 : 0 ≤ s) (hs1 : s ≤ 1)
    (hl0 : 0 ≤ l) (hl1 : l ≤ 1) :
    0 ≤ (hslToRgb h s l).1 ∧ (hslToRgb h s l).1 ≤ 1 ∧
    0 ≤ (hslToRgb h s l).2.1 ∧ (hslToRgb h s l).2.1 ≤ 1 ∧
    0 ≤ (hslToRgb h s l).2.2 ∧ (hslToRgb h s l).2.2 ≤ 1 := by
  unfold hslToRgb
  by_cases hz : s = 0
  · rw [if_pos hz]
    exact ⟨hl0, hl1, hl0, hl1, hl0, hl1⟩
  · rw [if_neg hz]
    set q := if l < 1/2 then l * (1 + s) else l + s - l * s with hqd
    have hq1 : q ≤ 1 := by
      rw [hqd]
      split_ifs with hl
      · nlinarith
      · nlinarith [mul_nonneg (by linarith : (0:ℚ) ≤ 1 - s)
          (by linarith : (0:ℚ) ≤ 1 - l)]
    have hpq : 2 * l - q ≤ q := by
      rw [hqd]
      split_ifs with hl
      · nlinarith [mul_nonneg hl0 hs0]
      · nlinarith [mul_nonneg hs0 (by linarith : (0:ℚ) ≤ 1 - l)]
    have hp0 : 0 ≤ 2 * l - q := by
      rw [hqd]
      split_ifs with hl
      · nlinarith [mul_nonneg hl0 hs0]
      · nlinarith [mul_nonneg (by linarith : (0:ℚ) ≤ 1 + s)
          (by linarith : (0:ℚ) ≤ l - 1/2)]
    have c1 := hue2rgb_mem (t := h + 1/3) (by linarith) hp0 hpq hq1
    have c2 := hue2rgb_mem (t := h) (by linarith) hp0 hpq hq1
    have c3 := hue2rgb_mem (t := h - 1/3) (by linarith) hp0 hpq hq1
    exact ⟨c1.1, c1.2, c2.1, c2.2, c3.1, c3.2⟩

theorem toHexChannel_mem {v : ℚ} (h0 : 0 ≤ v) (h1 : v ≤ 1) :
    0 ≤ toHexChannel v ∧ toHexChannel v ≤ 255 := by
  unfold toHexChannel jsRound
  constructor
  · apply Int.floor_nonneg.mpr
    linarith
  · have hlt : v * 255 + 1/2 < (256 : ℤ) := by
      push_cast
      linarith
    have := Int.floor_lt.mpr hlt
    omega

/-- C9: the particle tint derivation is a pure function on 0–255 channel
triples (hex parsing/formatting being the standard bijection between
`'#rrggbb'` strings and triples): it converts RGB to HSL, multiplies
saturation by 0.85 clamped below at 0, adds 0.1 to lightness clamped
above at 1, and converts back; each output channel again lies in 0–255,
and equal inputs always give equal outputs. -/
theorem C9_color_transform (r g b : ℕ) (hr : r ≤ 255) (hg : g ≤ 255)
    (hb : b ≤ 255) :
    0 ≤ (lightenAndDesaturateColor r g b).1 ∧
    (lightenAndDesaturateColor r g b).1 ≤ 255 ∧
    0 ≤ (lightenAndDesaturateColor r g b).2.1 ∧
    (lightenAndDesaturateColor r g b).2.1 ≤ 255 ∧
    0 ≤ (lightenAndDesaturateColor r g b).2.2 ∧
    (lightenAndDesaturateColor r g b).2.2 ≤ 255 := by
  obtain ⟨hh0, _, hs0, hs1, hl0, hl1⟩ := hslOf_mem r g b hr hg hb
  have hsb0 : 0 ≤ max 0 ((hslOf r g b).2.1 * 0.85) := le_max_left _ _
  have hsb1 : max 0 ((hslOf r g b).2.1 * 0.85) ≤ 1 :=
    max_le (by norm_num) (by nlinarith)
  have hlb0 : 0 ≤ min 1 ((hslOf r g b).2.2 + 0.1) :=
    le_min (by norm_num) (by linarith)
  have hlb1 : min 1 ((hslOf r g b).2.2 + 0.1) ≤ 1 := min_le_left _ _
  obtain ⟨c10, c11, c20, c21, c30, c31⟩ := hslToRgb_mem hh0 hsb0 hsb1 hlb0 hlb1
  unfold lightenAndDesaturateColor
  exact ⟨(toHexChannel_mem c10 c11).1, (toHexChannel_mem c10 c11).2,
    (toHexChannel_mem c20 c21).1, (toHexChannel_mem c20 c21).2,
    (toHexChannel_mem c30 c31).1, (toHexChannel_mem c30 c31).2⟩

theorem C9_witness :
    0 ≤ (lightenAndDesaturateColor 160 128 128).1 ∧
    (lightenAndDesaturateColor 160 128 128).1 ≤ 255 ∧
    0 ≤ (lightenAndDesaturateColor 160 128 128).2.1 ∧
    (lightenAndDesaturateColor 160 128 128).2.1 ≤ 255 ∧
    0 ≤ (lightenAndDesaturateColor 160 128 128).2.2 ∧
    (lightenAndDesaturateColor 160 128 128).2.2 ≤ 255 :=
  C9_color_transform 160 128 128 (by norm_num) (by norm_num) (by norm_num)

end AnimatedSankey
